import Mathlib

/-!
Verification of the ScopeCrawler repository: a shallow embedding of its
member-collection engine (`crawler.js` / MemberCollector), the legacy
standalone collector in `src/crawler.js`, and the observer-based
instrumentation layer (`scope-logger.js`), with theorems settling the
specification claims.

JavaScript values are modelled by `JSValue` (object/function references are
heap ids), host objects by `HObj` in a heap `Nat → HObj`, fallible host
operations (throwing getters, throwing key enumeration, throwing predicates
and transforms) by `Except Unit`, and `RegExp` pattern objects by `RegexObj`
carrying the mutable `lastIndex` cursor explicitly.
-/

/-- A JavaScript value: primitives, or a reference into the object heap
(`ref` covers both plain objects and functions; `typeof` dispatch uses the
heap entry). -/
inductive JSValue where
  | undefined
  | null
  | bool (b : Bool)
  | num (n : Int)
  | str (s : String)
  | ref (id : Nat)
deriving DecidableEq, Repr

/-- JavaScript truthiness. -/
def truthy : JSValue → Bool
  | .undefined => false
  | .null => false
  | .bool b => b
  | .num n => n != 0
  | .str s => s != ""
  | .ref _ => true

/-- How a thenable settles: resolution with a value or rejection with a
reason. -/
inductive SettleOutcome where
  | resolved (v : JSValue)
  | rejected (e : JSValue)
deriving DecidableEq, Repr

/-- A thenable (promise-like) value: an identity (reference) plus the
outcome it settles with. -/
structure Thenable where
  id : Nat
  outcome : SettleOutcome
deriving DecidableEq, Repr

/-- `result.then(...).catch(...)`: chaining produces a new promise object
(distinct reference) that settles with the same outcome, since the installed
handlers return the resolved value and rethrow the rejection reason. -/
def Thenable.chainDerived (t : Thenable) : Thenable :=
  ⟨t.id + 1, t.outcome⟩

/-- The outcome of invoking a JavaScript function: a plain return value, a
returned thenable (a truthy value with a callable `then`), or a thrown
error. -/
inductive CallResult where
  | value (v : JSValue)
  | thenable (t : Thenable)
  | throw (e : JSValue)
deriving DecidableEq, Repr

/-- Code of a function object: either an opaque base behavior (a function
supplied by the user of the library) or a logging wrapper installed by
`scope-logger.js`, which captured the previous property value. -/
inductive FnCode where
  | base (behavior : List JSValue → JSValue → CallResult)
  | wrapper (label : String) (key : String) (awaitPromises : Bool) (captured : JSValue)

/-- An own-property descriptor: a data property or an accessor.  For an
accessor, `getThrows` models a getter that throws on read (e.g.
cross-origin), and `value` is what a successful get returns. -/
inductive PropDesc where
  | data (value : JSValue) (writable : Bool) (enumerable : Bool)
  | accessor (hasGetter : Bool) (hasSetter : Bool) (getThrows : Bool)
      (value : JSValue) (enumerable : Bool)
deriving DecidableEq, Repr

/-- Whether an own property shows up in `Object.keys`. -/
def PropDesc.enum : PropDesc → Bool
  | .data _ _ e => e
  | .accessor _ _ _ _ e => e

/-- A host object: its ordered own properties, its prototype link
(`Object.getPrototypeOf`), optional function code (present iff
`typeof` is `function`), and a flag for exotic objects (proxies) whose key
enumeration traps throw. -/
structure HObj where
  props : List (String × PropDesc)
  protoId : Option Nat
  fnCode : Option FnCode
  keysThrow : Bool

/-- The object heap. Ids `0` and `1` are reserved for the two universal
terminal prototypes. -/
def Heap : Type := Nat → HObj

/-- Reserved heap id of `Object.prototype`. -/
def objectProtoId : Nat := 0

/-- Reserved heap id of `Function.prototype`. -/
def functionProtoId : Nat := 1

/-- Replace the heap entry at one id. -/
def updateHeap (h : Heap) (id : Nat) (o : HObj) : Heap :=
  fun i => if i = id then o else h i

/-- `typeof v === 'function'`. -/
def isCallable (h : Heap) : JSValue → Bool
  | .ref id => (h id).fnCode.isSome
  | _ => false

/-- Look up an own property descriptor. -/
def lookupProp (o : HObj) (key : String) : Option PropDesc :=
  o.props.lookup key

/-- Read through a descriptor: data value, accessor get (which may throw),
or `undefined` for a setter-only accessor. -/
def readDesc : PropDesc → Except Unit JSValue
  | .data v _ _ => .ok v
  | .accessor g _ gt v _ =>
      if gt then .error () else if g then .ok v else .ok .undefined

/-- `Object.keys(o)` for a heap id: enumerable own property names, or a
throw for exotic objects. -/
def jsKeysId (h : Heap) (id : Nat) : Except Unit (List String) :=
  if (h id).keysThrow then .error ()
  else .ok (((h id).props.filter (fun p => p.2.enum)).map (·.1))

/-- `Object.getOwnPropertyNames(o)` for a heap id: all own property names,
or a throw for exotic objects. -/
def jsNamesId (h : Heap) (id : Nat) : Except Unit (List String) :=
  if (h id).keysThrow then .error ()
  else .ok ((h id).props.map (·.1))

/-- `Object.keys(v)` on an arbitrary value: primitives contribute no keys. -/
def jsKeys (h : Heap) : JSValue → Except Unit (List String)
  | .ref id => jsKeysId h id
  | _ => .ok []

/-- Property read `v[key]`, walking the prototype chain (bounded by `fuel`;
JavaScript prototype chains are finite and acyclic).  Reads on primitives
are modelled as `undefined`. -/
def jsGet (h : Heap) : Nat → JSValue → String → Except Unit JSValue
  | 0, _, _ => .ok .undefined
  | fuel + 1, v, key =>
    match v with
    | .ref id =>
      match lookupProp (h id) key with
      | some d => readDesc d
      | none =>
        match (h id).protoId with
        | some p => jsGet h fuel (.ref p) key
        | none => .ok .undefined
    | _ => .ok .undefined

/-- The `in` operator: own-or-inherited property existence. -/
def jsHas (h : Heap) : Nat → Nat → String → Bool
  | 0, _, _ => false
  | fuel + 1, id, key =>
    match lookupProp (h id) key with
    | some _ => true
    | none =>
      match (h id).protoId with
      | some p => jsHas h fuel p key
      | none => false

/-- Assignment `o[key] = v` at the own-property level (strict mode): fails
on a non-writable data property or a setter-less accessor; otherwise
updates in place or appends a fresh writable enumerable data property. -/
def jsSetOwn (o : HObj) (key : String) (v : JSValue) : Except Unit HObj :=
  match lookupProp o key with
  | some (.data _ w e) =>
      if w then
        .ok { o with props := o.props.map (fun p =>
          if p.1 = key then (p.1, .data v w e) else p) }
      else .error ()
  | some (.accessor g s gt _ e) =>
      if s then
        .ok { o with props := o.props.map (fun p =>
          if p.1 = key then (p.1, .accessor g s gt v e) else p) }
      else .error ()
  | none => .ok { o with props := o.props ++ [(key, .data v true true)] }

/-- String coercion `String(v)` for the values the collectors coerce. -/
def jsToStr : JSValue → String
  | .undefined => "undefined"
  | .null => "null"
  | .bool b => if b then "true" else "false"
  | .num n => toString n
  | .str s => s
  | .ref _ => "[object Object]"

/-- Does the list `l` start with the list `p`? -/
def listStarts : List Char → List Char → Bool
  | _, [] => true
  | [], _ :: _ => false
  | a :: as, b :: bs => a = b && listStarts as bs

/-- Does the list `l` contain `p` as a contiguous sublist? -/
def listHasInfix : List Char → List Char → Bool
  | l, p =>
    if listStarts l p then true
    else match l with
      | [] => false
      | _ :: rest => listHasInfix rest p

/-- `key.startsWith(s)`. -/
def jsStartsWith (key s : String) : Bool := listStarts key.toList s.toList

/-- `key.endsWith(s)`. -/
def jsEndsWith (key s : String) : Bool :=
  listStarts key.toList.reverse s.toList.reverse

/-- `key.includes(s)`. -/
def jsIncludes (key s : String) : Bool := listHasInfix key.toList s.toList

/-- A well-behaved `RegExp` pattern object (writable `lastIndex`,
non-throwing `test`).  `global` is true when the `g` or `y` flag is set
(the flags under which `test` consults and updates `lastIndex`);
`matchFrom s i` is the abstract matching engine: the end position of the
first match of the pattern in `s` at or after position `i`.  Hostile
regex-like pattern objects — frozen patterns, or objects whose `test`
dispatch throws — are modelled separately by `RegexE` and the fallible
matcher evaluation in namespace `MCE`. -/
structure RegexObj where
  global : Bool
  lastIndex : Nat
  matchFrom : String → Nat → Option Nat

/-- `RegExp.prototype.test`: without `g`/`y` flags the search always starts
at 0 and `lastIndex` is untouched; with them the search starts at
`lastIndex`, which is advanced past the match on success and reset to 0 on
failure. -/
def RegexObj.test (r : RegexObj) (s : String) : Bool × RegexObj :=
  if r.global then
    match r.matchFrom s r.lastIndex with
    | some e => (true, { r with lastIndex := e })
    | none => (false, { r with lastIndex := 0 })
  else
    ((r.matchFrom s 0).isSome, r)

/-- A matcher's `value` field: a string pattern, a `RegExp`, a predicate
function (which may throw), or anything else (inert). -/
inductive MVal where
  | str (s : String)
  | regex (r : RegexObj)
  | fn (p : String → JSValue → JSValue → Except Unit Bool)
  | other

/-- A matcher rule `{ type, value, transform? }`.  A transform may throw
(`.error`) and otherwise returns a value modelled as `none`
(null/undefined) or `some s` (any other value, coerced to string). -/
structure Matcher where
  type : String
  value : MVal
  transform : Option (String → JSValue → MVal → Except Unit (Option String))

/-- The record handed to an `onMatch` observer. -/
structure MatchInfo where
  key : String
  value : JSValue
  source : JSValue
  matcher : Matcher
  transformed : Option String

/-- The ambient environment: which of the three well-known global bindings
pass their `typeof x !== 'undefined'` probe, and with what value. -/
structure Env where
  globalThis : Option JSValue
  window : Option JSValue
  global : Option JSValue

/-- The result of ambient default-source resolution: an existing binding's
value, or the final `return {}` fallback (a fresh empty object). -/
inductive AmbientSource where
  | binding (v : JSValue)
  | freshEmpty
deriving DecidableEq, Repr

/-- Add a string to a result set (JavaScript `Set`: dedup, keep insertion
order). -/
def addStr (res : List String) (s : String) : List String :=
  if s ∈ res then res else res ++ [s]

/-- `seedSet`: add seed values to the result set, skipping null/undefined
entries (`v != null`). -/
def seedSet : List String → List (Option String) → List String
  | res, [] => res
  | res, none :: vs => seedSet res vs
  | res, some s :: vs => seedSet (addStr res s) vs

/-- Add a transform output to the result: discarded when null/undefined or
the empty string (`out != null && out !== ''`). -/
def addOut (res : List String) : Option String → List String
  | some o => if o = "" then res else addStr res o
  | none => res

namespace MC

/-! The MemberCollector module (the modern `crawler.js`, `part_000`):
`getDefaultSource`, `applyMatchers`, `collectMembers`,
`collectMembersWide`, and the preset matcher packs. -/

/-- `getDefaultSource` of MemberCollector: probes `globalThis`, then
`window`, then `global`, and finally falls back to a fresh empty object. -/
def getDefaultSource (e : Env) : AmbientSource :=
  match e.globalThis with
  | some v => .binding v
  | none =>
    match e.window with
    | some v => .binding v
    | none =>
      match e.global with
      | some v => .binding v
      | none => .freshEmpty

/-- One matcher test against a key (the `switch (mType)` dispatch), for
matcher lists whose regex patterns are well-behaved `RegexObj`s.  A
pattern of the wrong runtime type never matches; a `regex` pattern has its
`lastIndex` reset to 0 before testing; a throwing `custom` predicate counts
as no match.  Returns the match flag together with the matcher (whose regex
cursor state may have advanced).  The variant covering hostile regex-like
patterns — where the uncaught `mVal.lastIndex = 0` write and `mVal.test(key)`
dispatch can throw — is `MCE.matcherTest`. -/
def matcherTest (m : Matcher) (key : String) (value src : JSValue) :
    Bool × Matcher :=
  if m.type = "prefix" then
    (match m.value with | .str s => jsStartsWith key s | _ => false, m)
  else if m.type = "suffix" then
    (match m.value with | .str s => jsEndsWith key s | _ => false, m)
  else if m.type = "includes" then
    (match m.value with | .str s => jsIncludes key s | _ => false, m)
  else if m.type = "regex" then
    match m.value with
    | .regex r =>
      let rz : RegexObj := { r with lastIndex := 0 }
      let tr := rz.test key
      (tr.1, { m with value := .regex tr.2 })
    | _ => (false, m)
  else if m.type = "custom" then
    (match m.value with
     | .fn p => (match p key value src with | .ok b => b | .error _ => false)
     | _ => false, m)
  else
    (false, m)

/-- Compute a matched rule's output: run `transform` when present (a throw
yields no output), otherwise the key itself. -/
def runTransform (m : Matcher) (key : String) (value : JSValue) :
    Option String :=
  match m.transform with
  | some t =>
    match t key value m.value with
    | .ok o => o
    | .error _ => none
  | none => some key

/-- `applyMatchers`: run every matcher against one `(key, value, source)`
triple, adding outputs to the result set and notifying the observer (whose
failures are swallowed; the observer is a total state update here).  The
matcher list is returned with updated regex cursor states. -/
def applyMatchers {σ : Type} (onMatch : Option (MatchInfo → σ → σ))
    (key : String) (value src : JSValue) :
    List Matcher → List String → σ → List String × List Matcher × σ
  | [], res, s => (res, [], s)
  | m :: ms, res, s =>
    let t := matcherTest m key value src
    if t.1 then
      let out := runTransform t.2 key value
      let res1 := addOut res out
      let s1 :=
        match onMatch with
        | some f => f ⟨key, value, src, t.2, out⟩ s
        | none => s
      let rest := applyMatchers onMatch key value src ms res1 s1
      (rest.1, t.2 :: rest.2.1, rest.2.2)
    else
      let rest := applyMatchers onMatch key value src ms res s
      (rest.1, t.2 :: rest.2.1, rest.2.2)

/-- The key loop of `collectMembers`: read each key's value (a throwing
getter skips that key only) and feed it to the matchers. -/
def scanKeys {σ : Type} (onMatch : Option (MatchInfo → σ → σ)) (h : Heap)
    (fuel : Nat) (src : JSValue) :
    List String → List String × List Matcher × σ →
    List String × List Matcher × σ
  | [], acc => acc
  | k :: ks, (res, ms, s) =>
    match jsGet h fuel src k with
    | .error _ => scanKeys onMatch h fuel src ks (res, ms, s)
    | .ok v => scanKeys onMatch h fuel src ks (applyMatchers onMatch k v src ms res s)

/-- Resolve the `source` option of `collectMembers`: the default parameter
applies `getDefaultSource` when the option is absent, and the subsequent
`if (!source)` guard drops falsy sources.  `none` means "scan nothing"; the
fresh `\x7b\x7d` fallback also contributes no keys, so it resolves to
`none` as well. -/
def resolveSource (e : Env) : Option JSValue → Option JSValue
  | some v => if truthy v then some v else none
  | none =>
    match getDefaultSource e with
    | .binding v => if truthy v then some v else none
    | .freshEmpty => none

/-- `collectMembers`: seed with `defaults` and `extra`, resolve the source,
enumerate its own enumerable keys (an enumeration failure returns the seeds
only), and run every key through the matchers.  Returns the result set, the
matchers with updated regex cursors, and the observer state. -/
def collectMembers {σ : Type} (e : Env) (h : Heap) (fuel : Nat)
    (sourceOpt : Option JSValue) (defaults extra : List (Option String))
    (matchers : List Matcher) (onMatch : Option (MatchInfo → σ → σ))
    (s0 : σ) : List String × List Matcher × σ :=
  let res0 := seedSet (seedSet [] defaults) extra
  match resolveSource e sourceOpt with
  | none => (res0, matchers, s0)
  | some src =>
    match jsKeys h src with
    | .error _ => (res0, matchers, s0)
    | .ok keys => scanKeys onMatch h fuel src keys (res0, matchers, s0)

/-- `addSource`: add a candidate to the source closure, rejecting falsy
values and primitives and deduplicating by reference identity. -/
def addSource (sources : List Nat) : JSValue → List Nat
  | .ref id => if id ∈ sources then sources else sources ++ [id]
  | _ => sources

/-- The prototype-chain walk: add each ancestor, stopping at (and
excluding) the two universal terminal prototypes. -/
def protoChain (h : Heap) : Nat → Option Nat → List Nat → List Nat
  | 0, _, acc => acc
  | _ + 1, none, acc => acc
  | fuel + 1, some pid, acc =>
    if pid = objectProtoId ∨ pid = functionProtoId then acc
    else protoChain h fuel ((h pid).protoId) (addSource acc (.ref pid))

/-- Name candidates for the global-alias probe: `root.name` when the root
is callable, `root.prototype.name`, and `root.constructor.name`, each read
best-effort and kept only when truthy. -/
def nameCands (h : Heap) (fuel : Nat) (root : JSValue) : List String :=
  let c1 :=
    match root with
    | .ref rid =>
      if (h rid).fnCode.isSome then
        match jsGet h fuel root "name" with
        | .ok v => if truthy v then [jsToStr v] else []
        | .error _ => []
      else []
    | _ => []
  let c2 :=
    match jsGet h fuel root "prototype" with
    | .ok p =>
      if truthy p then
        match jsGet h fuel p "name" with
        | .ok v => if truthy v then [jsToStr v] else []
        | .error _ => []
      else []
    | .error _ => []
  let c3 :=
    match jsGet h fuel root "constructor" with
    | .ok c =>
      if truthy c then
        match jsGet h fuel c "name" with
        | .ok v => if truthy v then [jsToStr v] else []
        | .error _ => []
      else []
    | .error _ => []
  c1 ++ c2 ++ c3

/-- The `expandChildren` step: for each requested property name present on
the root (`childKey in root`), add its value as a scan source; failures
are swallowed. -/
def expandStep (h : Heap) (fuel : Nat) (root : JSValue) :
    List String → List Nat → List Nat
  | [], acc => acc
  | ck :: cks, acc =>
    let acc1 :=
      match root with
      | .ref rid =>
        if jsHas h fuel rid ck then
          match jsGet h fuel root ck with
          | .ok v => addSource acc v
          | .error _ => acc
        else acc
      | _ => acc
    expandStep h fuel root cks acc1

/-- The global-alias step: resolve the ambient global object and, for each
non-empty name candidate bound on it, add that binding's value. -/
def aliasStep (h : Heap) (fuel : Nat) (g : Option JSValue) :
    List String → List Nat → List Nat
  | [], acc => acc
  | nm :: nms, acc =>
    let acc1 :=
      if nm = "" then acc
      else
        match g with
        | some (.ref gid) =>
          if jsHas h fuel gid nm then
            match jsGet h fuel (.ref gid) nm with
            | .ok v => addSource acc v
            | .error _ => acc
          else acc
        | _ => acc
    aliasStep h fuel g nms acc1

/-- One best-effort family-member addition (the guarded
`try { if (root && root.member) addSource(root.member) } catch {}` blocks
for `constructor` and `prototype`): a read failure or a falsy value leaves
the closure unchanged. -/
def tryAddMember (acc : List Nat) (root : JSValue)
    (r : Except Unit JSValue) : List Nat :=
  match r with
  | .ok c => if truthy root ∧ truthy c then addSource acc c else acc
  | .error _ => acc

/-- Build the source closure of `collectMembersWide`: the root, the
expanded children, `root.constructor`, `root.prototype`, the prototype
chain up to the terminal prototypes, and the global alias candidates —
every step best-effort, deduplicated by reference identity. -/
def buildSources (h : Heap) (fuel : Nat) (e : Env) (root : JSValue)
    (expandChildren : List String) : List Nat :=
  let s1 := addSource [] root
  let s2 := expandStep h fuel root expandChildren s1
  let s3 := tryAddMember s2 root (jsGet h fuel root "constructor")
  let s4 := tryAddMember s3 root (jsGet h fuel root "prototype")
  let s5 :=
    match root with
    | .ref rid => protoChain h fuel ((h rid).protoId) s4
    | _ => s4
  let g : Option JSValue :=
    match e.globalThis with
    | some v => some v
    | none =>
      match e.window with
      | some v => some v
      | none => e.global
  aliasStep h fuel g (nameCands h fuel root) s5

/-- The per-source key loop of `collectMembersWide`: values are read from
the observer's current heap, so in-place mutation performed by an observer
(the instrumentation layer) is visible to later reads. -/
def scanSrcKeys {σ : Type} (getH : σ → Heap)
    (onMatch : Option (MatchInfo → σ → σ)) (fuel : Nat) (sid : Nat) :
    List String → List String × List Matcher × σ →
    List String × List Matcher × σ
  | [], acc => acc
  | k :: ks, (res, ms, s) =>
    match jsGet (getH s) fuel (.ref sid) k with
    | .error _ => scanSrcKeys getH onMatch fuel sid ks (res, ms, s)
    | .ok v =>
      scanSrcKeys getH onMatch fuel sid ks
        (applyMatchers onMatch k v (.ref sid) ms res s)

/-- Scan each member of the source closure: merge its enumerable keys with
its full own-property-name list (deduplicated per source, first occurrence
kept) and run every key through the matchers. -/
def scanSources {σ : Type} (getH : σ → Heap)
    (onMatch : Option (MatchInfo → σ → σ)) (fuel : Nat) :
    List Nat → List String × List Matcher × σ →
    List String × List Matcher × σ
  | [], acc => acc
  | sid :: rest, acc =>
    let h := getH acc.2.2
    let keys := match jsKeysId h sid with | .ok ks => ks | .error _ => []
    let names := match jsNamesId h sid with | .ok ns => ns | .error _ => []
    let uniq := (keys ++ names).foldl addStr []
    scanSources getH onMatch fuel rest
      (scanSrcKeys getH onMatch fuel sid uniq acc)

/-- Resolve the `root` option of `collectMembersWide`: a falsy or absent
root falls back to `getDefaultSource`. -/
def resolveRoot (e : Env) : Option JSValue → AmbientSource
  | some v => if truthy v then .binding v else getDefaultSource e
  | none => getDefaultSource e

/-- `collectMembersWide`: seed, resolve the root, build the family closure
and scan each member, threading the observer state (through which the
instrumentation layer mutates the heap).  When the root falls back to the
fresh empty object, its family contributes no keys and the seeds are
returned. -/
def collectMembersWide {σ : Type} (getH : σ → Heap) (e : Env) (fuel : Nat)
    (rootOpt : Option JSValue) (defaults extra : List (Option String))
    (matchers : List Matcher) (onMatch : Option (MatchInfo → σ → σ))
    (expandChildren : List String) (s0 : σ) :
    List String × List Matcher × σ :=
  let res0 := seedSet (seedSet [] defaults) extra
  match resolveRoot e rootOpt with
  | .freshEmpty => (res0, matchers, s0)
  | .binding root =>
    let sources := buildSources (getH s0) fuel e root expandChildren
    scanSources getH onMatch fuel sources (res0, matchers, s0)

/-- The `domEvents` preset pack. -/
def domEventsPack : List Matcher :=
  [⟨"prefix", .str "on", none⟩,
   ⟨"includes", .str "EventListener", none⟩,
   ⟨"includes", .str "EventTarget", none⟩]

/-- The `network` preset pack. -/
def networkPack : List Matcher :=
  [⟨"includes", .str "fetch", none⟩,
   ⟨"includes", .str "XHR", none⟩,
   ⟨"includes", .str "Request", none⟩,
   ⟨"includes", .str "Response", none⟩]

/-- The `console` preset pack. -/
def consolePack : List Matcher :=
  [⟨"includes", .str "log", none⟩,
   ⟨"includes", .str "warn", none⟩,
   ⟨"includes", .str "error", none⟩,
   ⟨"includes", .str "debug", none⟩]

/-- The array reference held as an own property of the `matcherPacks`
table for each of its three own pack names (array references 0, 1, 2 in
the array store below); `none` for every other name.  The full property
read, including what the table inherits from `Object.prototype`, is
`packLookup` below. -/
def packRef (name : String) : Option Nat :=
  if name = "domEvents" then some 0
  else if name = "network" then some 1
  else if name = "console" then some 2
  else none

/-- A store of array objects, tracking reference identity so that aliasing
between the preset table and accessor results is observable. -/
structure Arrays where
  heapA : Nat → List Matcher
  nextA : Nat

/-- The initial store: the `matcherPacks` table owns arrays 0, 1, 2. -/
def initArrays : Arrays :=
  ⟨fun i => if i = 0 then domEventsPack
    else if i = 1 then networkPack
    else if i = 2 then consolePack
    else [], 3⟩

/-- `.slice()`: allocate a fresh array with the same contents. -/
def sliceArr (st : Arrays) (r : Nat) : Nat × Arrays :=
  (st.nextA,
   ⟨fun i => if i = st.nextA then st.heapA r else st.heapA i, st.nextA + 1⟩)

/-- Allocate a fresh array with the given contents (an array literal). -/
def allocArr (st : Arrays) (l : List Matcher) : Nat × Arrays :=
  (st.nextA,
   ⟨fun i => if i = st.nextA then l else st.heapA i, st.nextA + 1⟩)

/-- The own property names of `Object.prototype`: the `matcherPacks` table
is a plain object literal, so a lookup `matcherPacks[name]` that misses the
own keys continues into `Object.prototype` and finds these members — all of
them truthy (functions, or `Object.prototype` itself for the `__proto__`
accessor). -/
def objectProtoMemberNames : List String :=
  ["constructor", "hasOwnProperty", "isPrototypeOf", "propertyIsEnumerable",
   "toLocaleString", "toString", "valueOf", "__proto__", "__defineGetter__",
   "__defineSetter__", "__lookupGetter__", "__lookupSetter__"]

/-- Outcome of the property read `matcherPacks[name]`: one of the table's
own arrays, a truthy value inherited from `Object.prototype` (which has no
callable `.slice`), or `undefined`. -/
inductive PackLookup where
  | arr (r : Nat)
  | protoMember
  | absent
deriving DecidableEq, Repr

/-- The property read `matcherPacks[name]`, walking the prototype chain of
the table object. -/
def packLookup (name : String) : PackLookup :=
  match packRef name with
  | some r => .arr r
  | none =>
    if name ∈ objectProtoMemberNames then .protoMember else .absent

/-- `getMatcherPack`: evaluate `matcherPacks[name] ? matcherPacks[name].slice() : []`.
An own pack array is truthy and sliced (a fresh copy); a truthy value
inherited from `Object.prototype` also passes the guard, but calling
`.slice()` on it throws a `TypeError`; only a genuinely absent name takes
the `[]` branch. -/
def getMatcherPack (st : Arrays) (name : String) :
    Except Unit (Nat × Arrays) :=
  match packLookup name with
  | .arr r => .ok (sliceArr st r)
  | .protoMember => .error ()
  | .absent => .ok (allocArr st [])

/-- In-place mutation of the array at reference `r` (covers adding,
removing and reordering entries). -/
def mutateAt (st : Arrays) (r : Nat) (f : List Matcher → List Matcher) :
    Arrays :=
  { st with heapA := fun i => if i = r then f (st.heapA i) else st.heapA i }

end MC

namespace Crawler

/-! The legacy standalone collector (`src/crawler.js`): its own
`getDefaultSource` (note the different probe order) and `collectMembers`,
whose regex matching does not reset `lastIndex` before testing. -/

/-- `getDefaultSource` of `src/crawler.js`: probes `window` first, then
`globalThis`, then `global`, falling back to a fresh empty object. -/
def getDefaultSource (e : Env) : AmbientSource :=
  match e.window with
  | some v => .binding v
  | none =>
    match e.globalThis with
    | some v => .binding v
    | none =>
      match e.global with
      | some v => .binding v
      | none => .freshEmpty

/-- The matcher dispatch of `src/crawler.js`: identical to MemberCollector
except in the `regex` case, where `mVal.test(key)` is called without
resetting `lastIndex` first. -/
def matcherTest (m : Matcher) (key : String) (value src : JSValue) :
    Bool × Matcher :=
  if m.type = "prefix" then
    (match m.value with | .str s => jsStartsWith key s | _ => false, m)
  else if m.type = "suffix" then
    (match m.value with | .str s => jsEndsWith key s | _ => false, m)
  else if m.type = "includes" then
    (match m.value with | .str s => jsIncludes key s | _ => false, m)
  else if m.type = "regex" then
    match m.value with
    | .regex r =>
      let tr := r.test key
      (tr.1, { m with value := .regex tr.2 })
    | _ => (false, m)
  else if m.type = "custom" then
    (match m.value with
     | .fn p => (match p key value src with | .ok b => b | .error _ => false)
     | _ => false, m)
  else
    (false, m)

/-- The inner matcher loop of the legacy `collectMembers` (it has no
observer callback). -/
def applyMatchers (key : String) (value src : JSValue) :
    List Matcher → List String → List String × List Matcher
  | [], res => (res, [])
  | m :: ms, res =>
    let t := matcherTest m key value src
    if t.1 then
      let out := MC.runTransform t.2 key value
      let rest := applyMatchers key value src ms (addOut res out)
      (rest.1, t.2 :: rest.2)
    else
      let rest := applyMatchers key value src ms res
      (rest.1, t.2 :: rest.2)

/-- The key loop of the legacy `collectMembers`. -/
def scanKeys (h : Heap) (fuel : Nat) (src : JSValue) :
    List String → List String × List Matcher → List String × List Matcher
  | [], acc => acc
  | k :: ks, (res, ms) =>
    match jsGet h fuel src k with
    | .error _ => scanKeys h fuel src ks (res, ms)
    | .ok v => scanKeys h fuel src ks (applyMatchers k v src ms res)

/-- Source resolution of the legacy `collectMembers` (same structure as
MemberCollector, but through this module's `getDefaultSource`). -/
def resolveSource (e : Env) : Option JSValue → Option JSValue
  | some v => if truthy v then some v else none
  | none =>
    match getDefaultSource e with
    | .binding v => if truthy v then some v else none
    | .freshEmpty => none

/-- The legacy `collectMembers` of `src/crawler.js`. -/
def collectMembers (e : Env) (h : Heap) (fuel : Nat)
    (sourceOpt : Option JSValue) (defaults extra : List (Option String))
    (matchers : List Matcher) : List String × List Matcher :=
  let res0 := seedSet (seedSet [] defaults) extra
  match resolveSource e sourceOpt with
  | none => (res0, matchers)
  | some src =>
    match jsKeys h src with
    | .error _ => (res0, matchers)
    | .ok keys => scanKeys h fuel src keys (res0, matchers)

end Crawler

/-- A call observation record `{ label, key, args, result?, error?,
thisArg, phase }`.  An absent or `undefined` field is `none`; the `result`
field can carry either a plain value or a thenable. -/
inductive ObsResult where
  | v (x : JSValue)
  | th (t : Thenable)
deriving DecidableEq, Repr

/-- One record passed to `runLogger` (logger failures are swallowed, so the
emitted record stream is independent of the logger). -/
structure CallObservation where
  label : String
  key : String
  args : List JSValue
  result : Option ObsResult
  error : Option JSValue
  thisArg : JSValue
  phase : String
deriving DecidableEq, Repr

/-- The full outcome of invoking a (possibly wrapped) function: what it
returns or throws, the observations emitted synchronously during the call,
and the observations scheduled to fire when a returned thenable settles. -/
structure CallOutcome where
  ret : CallResult
  immediate : List CallObservation
  onSettle : List CallObservation
deriving Repr

namespace Logger

/-! The observer-based instrumentation layer (`scope-logger.js`,
`part_001`): the wrapper body installed by `wrapFunction`, the wrap
registry, target resolution, `wrapFunction` itself and
`addLoggingToFunctions`. -/

/-- The body of an installed logging wrapper, as a function of the inner
call's outcome: on synchronous throw it logs a `phase: 'call'` record with
the error and rethrows; on a thenable result with `awaitPromises` it logs
the call and returns `result.then(...).catch(...)`, scheduling a
`resolved`/`rejected` observation at settlement; otherwise it logs the call
with the result and returns it unchanged. -/
def wrapStep (label key : String) (awaitPromises : Bool)
    (args : List JSValue) (this : JSValue) (inner : CallOutcome) :
    CallOutcome :=
  match inner.ret with
  | .throw err =>
    ⟨.throw err,
     inner.immediate ++ [⟨label, key, args, none, some err, this, "call"⟩],
     inner.onSettle⟩
  | .thenable t =>
    if awaitPromises then
      ⟨.thenable t.chainDerived,
       inner.immediate ++ [⟨label, key, args, some (.th t), none, this, "call"⟩],
       inner.onSettle ++
         [match t.outcome with
          | .resolved v => ⟨label, key, args, some (.v v), none, this, "resolved"⟩
          | .rejected e => ⟨label, key, args, none, some e, this, "rejected"⟩]⟩
    else
      ⟨.thenable t,
       inner.immediate ++ [⟨label, key, args, some (.th t), none, this, "call"⟩],
       inner.onSettle⟩
  | .value v =>
    ⟨.value v,
     inner.immediate ++ [⟨label, key, args, some (.v v), none, this, "call"⟩],
     inner.onSettle⟩

/-- Invoke a function value: base behaviors run directly; a wrapper runs
its captured function and then applies the wrapper body.  `fuel` bounds the
wrapper nesting depth; calling a non-function throws a `TypeError`. -/
def callFn (h : Heap) : Nat → JSValue → List JSValue → JSValue → CallOutcome
  | 0, _, _, _ => ⟨.throw (.str "RangeError"), [], []⟩
  | fuel + 1, f, args, this =>
    match f with
    | .ref id =>
      match (h id).fnCode with
      | some (.base b) => ⟨b args this, [], []⟩
      | some (.wrapper label key ap captured) =>
        wrapStep label key ap args this (callFn h fuel captured args this)
      | none => ⟨.throw (.str "TypeError"), [], []⟩
    | _ => ⟨.throw (.str "TypeError"), [], []⟩

/-- The options of `addLoggingToFunctions` (the logger sink itself is not
part of the state: its failures are swallowed and its return value is
unused). -/
structure LogOpts where
  matchers : List Matcher
  label : String
  wrapTarget : String
  awaitPromises : Bool
  expandChildren : List String

/-- The default options: match every member name, label `"[LOG]"`, patch on
the root, no promise awaiting. -/
def defaultOpts : LogOpts :=
  ⟨[⟨"includes", .str "", none⟩], "[LOG]", "root", false, []⟩

/-- The state threaded through one `addLoggingToFunctions` run: the live
object heap, the next fresh object id, and the per-call wrap registry
(`wrappedTargets`, a WeakMap from target to the set of wrapped keys,
modelled as a list of pairs). -/
structure WrapState where
  heap : Heap
  next : Nat
  registry : List (Nat × String)

/-- `markWrapped`: answer whether `(target, key)` is already registered
and, when it is not, record it — note that recording happens here, before
any install attempt. -/
def markWrapped (ws : WrapState) (tid : Nat) (key : String) :
    Bool × WrapState :=
  if (tid, key) ∈ ws.registry then (true, ws)
  else (false, ⟨ws.heap, ws.next, (tid, key) :: ws.registry⟩)

/-- `resolveTarget`: where the replacement is installed — the owning source
object (`owner`), its prototype (`prototype`, preferring a function's own
`.prototype`), or the instrumentation root (`root`, the default). -/
def resolveTarget (h : Heap) (fuel : Nat) (wrapTarget : String)
    (obj sourceObj : JSValue) : JSValue :=
  if wrapTarget = "owner" then
    if truthy sourceObj then sourceObj else obj
  else if wrapTarget = "prototype" then
    let viaProto : JSValue :=
      match sourceObj with
      | .ref sid =>
        match (h sid).protoId with
        | some p => .ref p
        | none => obj
      | _ => obj
    match sourceObj with
    | .ref sid =>
      if (h sid).fnCode.isSome then
        match jsGet h fuel sourceObj "prototype" with
        | .ok p => if truthy p then p else viaProto
        | .error _ => viaProto
      else viaProto
    | _ => viaProto
  else obj

/-- Does the own descriptor indicate a read-only accessor without a setter
(`descriptor.get && !descriptor.set && !descriptor.writable`)? -/
def skipDescriptor (o : HObj) (key : String) : Bool :=
  match lookupProp o key with
  | some (.accessor true false _ _ _) => true
  | _ => false

/-- `wrapFunction`: for a callable matched value, resolve the installation
target, consult and update the registry (`markWrapped` records the pair up
front), skip getter-only accessors, capture the current property value and
install a fresh wrapper function over it.  An assignment failure is
swallowed and leaves the member unmodified; a throwing getter when
capturing the original propagates out of `wrapFunction` and is swallowed by
the observer guard in `applyMatchers`, with the same net state. -/
def wrapFunction (fuel : Nat) (obj : JSValue) (opts : LogOpts)
    (ws : WrapState) (key : String) (value sourceObj : JSValue) :
    WrapState :=
  if isCallable ws.heap value then
    match resolveTarget ws.heap fuel opts.wrapTarget obj sourceObj with
    | .ref tid =>
      let mk := markWrapped ws tid key
      if mk.1 then mk.2
      else
        let ws1 := mk.2
        if skipDescriptor (ws1.heap tid) key then ws1
        else
          match jsGet ws1.heap fuel (.ref tid) key with
          | .error _ => ws1
          | .ok originalFn =>
            match jsSetOwn (ws1.heap tid) key (.ref ws1.next) with
            | .error _ => ws1
            | .ok tobj =>
              let wobj : HObj :=
                ⟨[], some functionProtoId,
                 some (.wrapper opts.label key opts.awaitPromises originalFn),
                 false⟩
              ⟨updateHeap (updateHeap ws1.heap ws1.next wobj) tid tobj,
               ws1.next + 1, ws1.registry⟩
    | _ => ws
  else ws

/-- The heap-plus-allocator state visible across calls (the wrap registry
is not part of it: `addLoggingToFunctions` creates a fresh one per call). -/
structure MState where
  heap : Heap
  next : Nat

/-- `addLoggingToFunctions`: bail out on a falsy target, then run
`collectMembersWide` over it with an observer that wraps every callable
matched member, threading the heap through the traversal.  The
`wrappedTargets` registry is created fresh for this one call and discarded
afterwards. -/
def addLoggingToFunctions (e : Env) (fuel : Nat) (obj : JSValue)
    (opts : LogOpts) (st : MState) : MState :=
  if truthy obj then
    let s0 : WrapState := ⟨st.heap, st.next, []⟩
    let out := MC.collectMembersWide (σ := WrapState) (fun ws => ws.heap) e
      fuel (some obj) [] [] opts.matchers
      (some (fun info ws => wrapFunction fuel obj opts ws info.key info.value info.source))
      opts.expandChildren s0
    ⟨out.2.2.heap, out.2.2.next⟩
  else st

end Logger

/-! Concrete objects and environments used to evaluate the model on
specific inputs. -/

/-- A bare empty object (also the model for the two terminal prototypes,
whose own members are irrelevant to the claims). -/
def emptyHObj : HObj := ⟨[], none, none, false⟩

/-- An environment with no ambient global bindings. -/
def noEnv : Env := ⟨none, none, none⟩

/-- An environment in which both `globalThis` and `window` are declared,
bound to two distinct objects. -/
def c2env : Env := ⟨some (.ref 10), some (.ref 20), none⟩

/-- An environment in which only `globalThis` is declared. -/
def c2envG : Env := ⟨some (.ref 10), none, none⟩

/-- Heap for the double-instrumentation scenario: object 2 is
`Object.create(null)` with one own function property `f` (object 3), a
function returning `1`. -/
def c5heap0 : Heap := fun i =>
  if i = 2 then ⟨[("f", .data (.ref 3) true true)], none, none, false⟩
  else if i = 3 then
    ⟨[], some functionProtoId, some (.base (fun _ _ => .value (.num 1))), false⟩
  else emptyHObj

/-- State after the first `addLoggingToFunctions(obj)` call. -/
def c5st1 : Logger.MState :=
  Logger.addLoggingToFunctions noEnv 4 (.ref 2) Logger.defaultOpts ⟨c5heap0, 4⟩

/-- State after the second, identical `addLoggingToFunctions(obj)` call. -/
def c5st2 : Logger.MState :=
  Logger.addLoggingToFunctions noEnv 4 (.ref 2) Logger.defaultOpts c5st1

/-- Heap for the `awaitPromises` scenario: object 3 is a function returning
a thenable that resolves to `42`; object 4 is its installed wrapper with
`awaitPromises` enabled. -/
def c1heap : Heap := fun i =>
  if i = 3 then
    ⟨[], some functionProtoId,
     some (.base (fun _ _ => .thenable ⟨0, .resolved (.num 42)⟩)), false⟩
  else if i = 4 then
    ⟨[], some functionProtoId, some (.wrapper "[LOG]" "f" true (.ref 3)), false⟩
  else emptyHObj

/-- Heap for the throw-transparency scenario: object 3 is a function that
throws `"E"`; object 4 is its installed wrapper. -/
def c7heap : Heap := fun i =>
  if i = 3 then
    ⟨[], some functionProtoId, some (.base (fun _ _ => .throw (.str "E"))), false⟩
  else if i = 4 then
    ⟨[], some functionProtoId, some (.wrapper "[LOG]" "f" false (.ref 3)), false⟩
  else emptyHObj

/-- Heap with a single source object whose one key is `"ab"`. -/
def c6heap : Heap := fun i =>
  if i = 2 then ⟨[("ab", .data (.num 1) true true)], none, none, false⟩
  else emptyHObj

/-- The sticky pattern `/a/y` as a `RegexObj`: against the string `"ab"` it
matches (ending at 1) exactly when the search starts at 0. -/
def stickyA : RegexObj :=
  ⟨true, 0, fun s i => if s = "ab" ∧ i = 0 then some 1 else none⟩

/-- A single regex matcher reusing the `stickyA` pattern object. -/
def c6m : List Matcher := [⟨"regex", .regex stickyA, none⟩]

/-- Heap in which one object (id 3) is reachable from the root (id 2) two
ways: as the root's direct prototype and as the value of
`root.constructor` (inherited from that same prototype). -/
def c8heap : Heap := fun i =>
  if i = 2 then ⟨[("x", .data (.num 1) true true)], some 3, none, false⟩
  else if i = 3 then
    ⟨[("constructor", .data (.ref 3) true true)], some 0, none, false⟩
  else emptyHObj

/-- Heap for the failed-install scenario: the root (id 2) owns a
non-writable, non-configurable data property `f` holding function 3. -/
def c3heap : Heap := fun i =>
  if i = 2 then ⟨[("f", .data (.ref 3) false true)], none, none, false⟩
  else if i = 3 then
    ⟨[], some functionProtoId, some (.base (fun _ _ => .value .undefined)), false⟩
  else emptyHObj

/-- Erase a matcher's regex cursor state (set `lastIndex` to 0), leaving
everything else unchanged; non-regex matchers are untouched.  Two matchers
with equal erasure differ at most in their cursor positions. -/
def normMatcher (m : Matcher) : Matcher :=
  match m.value with
  | .regex r => { m with value := .regex { r with lastIndex := 0 } }
  | _ => m

/-! The MemberCollector evaluation with the regex error paths made
explicit.  `part_000` runs in strict mode and its regex branch
(`mVal.lastIndex = 0; matched = mVal.test(key)`) has no try/catch: a frozen
pattern makes the `lastIndex` write throw a `TypeError`, and a regex-like
object whose `test`/`exec` dispatch throws propagates as well — out of
`applyMatchers` and out of the `collectMembers`/`collectMembersWide` entry
points.  The definitions below mirror the namespace `MC` ones with those
two failure sites surfaced as `Except` errors. -/

/-- A possibly hostile regex-like pattern object: `frozen` marks a pattern
whose `lastIndex` is non-writable (e.g. `Object.freeze(/x/g)`), and
`testThrows` marks one whose `test` dispatch throws (an own or overridden
throwing `exec`, a proxy trap, a hostile subclass). -/
structure RegexE where
  global : Bool
  lastIndex : Nat
  matchFrom : String → Nat → Option Nat
  frozen : Bool
  testThrows : Bool

/-- `RegExp.prototype.test` with its failure modes: throws when the `test`
dispatch throws, or when a global/sticky test must update `lastIndex` on a
frozen pattern; otherwise the usual cursor semantics. -/
def RegexE.test (r : RegexE) (s : String) : Except Unit (Bool × RegexE) :=
  if r.testThrows then .error ()
  else if r.global then
    if r.frozen then .error ()
    else
      match r.matchFrom s r.lastIndex with
      | some e => .ok (true, { r with lastIndex := e })
      | none => .ok (false, { r with lastIndex := 0 })
  else .ok ((r.matchFrom s 0).isSome, r)

/-- Matcher `value` field for the fallible evaluation. -/
inductive MValE where
  | str (s : String)
  | regex (r : RegexE)
  | fn (p : String → JSValue → JSValue → Except Unit Bool)
  | other

/-- A matcher rule for the fallible evaluation. -/
structure MatcherE where
  type : String
  value : MValE
  transform : Option (String → JSValue → MValE → Except Unit (Option String))

/-- The observer record for the fallible evaluation. -/
structure MatchInfoE where
  key : String
  value : JSValue
  source : JSValue
  matcher : MatcherE
  transformed : Option String

/-- Is a matcher free of the hostile regex failure modes?  Non-regex
patterns never reach the uncaught sites. -/
def benignMatcher (m : MatcherE) : Bool :=
  match m.value with
  | .regex r => !r.frozen && !r.testThrows
  | _ => true

namespace MCE

/-- The matcher dispatch of `part_000` with the regex failure sites
explicit: `mVal.lastIndex = 0` throws on a frozen pattern (strict mode),
and `mVal.test(key)` may throw; neither site is inside a try/catch, so the
error propagates.  All other rule kinds are caught exactly as in
`MC.matcherTest`. -/
def matcherTest (m : MatcherE) (key : String) (value src : JSValue) :
    Except Unit (Bool × MatcherE) :=
  if m.type = "prefix" then
    .ok (match m.value with | .str s => jsStartsWith key s | _ => false, m)
  else if m.type = "suffix" then
    .ok (match m.value with | .str s => jsEndsWith key s | _ => false, m)
  else if m.type = "includes" then
    .ok (match m.value with | .str s => jsIncludes key s | _ => false, m)
  else if m.type = "regex" then
    match m.value with
    | .regex r =>
      if r.frozen then .error ()
      else
        match RegexE.test { r with lastIndex := 0 } key with
        | .error _ => .error ()
        | .ok br => .ok (br.1, { m with value := .regex br.2 })
    | _ => .ok (false, m)
  else if m.type = "custom" then
    .ok (match m.value with
      | .fn p => (match p key value src with | .ok b => b | .error _ => false)
      | _ => false, m)
  else .ok (false, m)

/-- A matched rule's output (transform failures are caught, as in the
source). -/
def runTransform (m : MatcherE) (key : String) (value : JSValue) :
    Option String :=
  match m.transform with
  | some t =>
    match t key value m.value with
    | .ok o => o
    | .error _ => none
  | none => some key

/-- The guarded observer invocation (`try { onMatch(...) } catch {}`): an
absent observer leaves the state unchanged, and observer behavior is a
total state update. -/
def notify {σ : Type} (onMatch : Option (MatchInfoE → σ → σ))
    (info : MatchInfoE) (s : σ) : σ :=
  match onMatch with
  | some f => f info s
  | none => s

/-- `applyMatchers` with the regex errors propagating: a throwing matcher
test aborts the whole evaluation. -/
def applyMatchers {σ : Type} (onMatch : Option (MatchInfoE → σ → σ))
    (key : String) (value src : JSValue) :
    List MatcherE → List String → σ →
    Except Unit (List String × List MatcherE × σ)
  | [], res, s => .ok (res, [], s)
  | m :: ms, res, s =>
    match matcherTest m key value src with
    | .error _ => .error ()
    | .ok t =>
      if t.1 then
        let out := runTransform t.2 key value
        let res1 := addOut res out
        let s1 := notify onMatch ⟨key, value, src, t.2, out⟩ s
        match applyMatchers onMatch key value src ms res1 s1 with
        | .error _ => .error ()
        | .ok rest => .ok (rest.1, t.2 :: rest.2.1, rest.2.2)
      else
        match applyMatchers onMatch key value src ms res s with
        | .error _ => .error ()
        | .ok rest => .ok (rest.1, t.2 :: rest.2.1, rest.2.2)

/-- The key loop of `collectMembers`: a throwing getter still skips that
key only, but a matcher-evaluation throw propagates. -/
def scanKeys {σ : Type} (onMatch : Option (MatchInfoE → σ → σ)) (h : Heap)
    (fuel : Nat) (src : JSValue) :
    List String → List String × List MatcherE × σ →
    Except Unit (List String × List MatcherE × σ)
  | [], acc => .ok acc
  | k :: ks, (res, ms, s) =>
    match jsGet h fuel src k with
    | .error _ => scanKeys onMatch h fuel src ks (res, ms, s)
    | .ok v =>
      match applyMatchers onMatch k v src ms res s with
      | .error _ => .error ()
      | .ok acc1 => scanKeys onMatch h fuel src ks acc1

/-- `collectMembers` with the regex error paths surfaced: enumeration
failures still degrade to the seeds, but a hostile regex pattern makes the
whole call throw. -/
def collectMembers {σ : Type} (e : Env) (h : Heap) (fuel : Nat)
    (sourceOpt : Option JSValue) (defaults extra : List (Option String))
    (matchers : List MatcherE) (onMatch : Option (MatchInfoE → σ → σ))
    (s0 : σ) : Except Unit (List String × List MatcherE × σ) :=
  let res0 := seedSet (seedSet [] defaults) extra
  match MC.resolveSource e sourceOpt with
  | none => .ok (res0, matchers, s0)
  | some src =>
    match jsKeys h src with
    | .error _ => .ok (res0, matchers, s0)
    | .ok keys => scanKeys onMatch h fuel src keys (res0, matchers, s0)

/-- The per-source key loop of `collectMembersWide`, with matcher throws
propagating. -/
def scanSrcKeys {σ : Type} (getH : σ → Heap)
    (onMatch : Option (MatchInfoE → σ → σ)) (fuel : Nat) (sid : Nat) :
    List String → List String × List MatcherE × σ →
    Except Unit (List String × List MatcherE × σ)
  | [], acc => .ok acc
  | k :: ks, (res, ms, s) =>
    match jsGet (getH s) fuel (.ref sid) k with
    | .error _ => scanSrcKeys getH onMatch fuel sid ks (res, ms, s)
    | .ok v =>
      match applyMatchers onMatch k v (.ref sid) ms res s with
      | .error _ => .error ()
      | .ok acc1 => scanSrcKeys getH onMatch fuel sid ks acc1

/-- The source scan of `collectMembersWide`, with matcher throws
propagating. -/
def scanSources {σ : Type} (getH : σ → Heap)
    (onMatch : Option (MatchInfoE → σ → σ)) (fuel : Nat) :
    List Nat → List String × List MatcherE × σ →
    Except Unit (List String × List MatcherE × σ)
  | [], acc => .ok acc
  | sid :: rest, acc =>
    let h := getH acc.2.2
    let keys := match jsKeysId h sid with | .ok ks => ks | .error _ => []
    let names := match jsNamesId h sid with | .ok ns => ns | .error _ => []
    let uniq := (keys ++ names).foldl addStr []
    match scanSrcKeys getH onMatch fuel sid uniq acc with
    | .error _ => .error ()
    | .ok acc1 => scanSources getH onMatch fuel rest acc1

/-- `collectMembersWide` with the regex error paths surfaced (the closure
construction itself is fully guarded in the source and stays total). -/
def collectMembersWide {σ : Type} (getH : σ → Heap) (e : Env) (fuel : Nat)
    (rootOpt : Option JSValue) (defaults extra : List (Option String))
    (matchers : List MatcherE) (onMatch : Option (MatchInfoE → σ → σ))
    (expandChildren : List String) (s0 : σ) :
    Except Unit (List String × List MatcherE × σ) :=
  let res0 := seedSet (seedSet [] defaults) extra
  match MC.resolveRoot e rootOpt with
  | .freshEmpty => .ok (res0, matchers, s0)
  | .binding root =>
    scanSources getH onMatch fuel
      (MC.buildSources (getH s0) fuel e root expandChildren)
      (res0, matchers, s0)

end MCE

/-- A plain source object with one own key (`a`), for exercising matcher
rules against one `(key, value)` pair. -/
def c4heap : Heap := fun i =>
  if i = 2 then ⟨[("a", .data (.num 1) true true)], none, none, false⟩
  else emptyHObj

/-- `Object.freeze(/x/g)`: a frozen global pattern — the strict-mode
`lastIndex` write throws. -/
def frozenRx : RegexE := ⟨true, 0, fun _ _ => none, true, false⟩

/-- A regex-like object whose `test` dispatch throws. -/
def throwingRx : RegexE := ⟨false, 0, fun _ _ => none, false, true⟩

/-- A well-behaved sticky pattern matching `a` at the start of the key. -/
def benignRx : RegexE :=
  ⟨true, 0, fun s i => if s = "a" ∧ i = 0 then some 1 else none, false, false⟩

/-! Claim theorems. -/

/-- C1 counterexample: wrapping a function returning a thenable that
resolves to 42 with `awaitPromises` enabled — the original function's
result is the thenable with identity 0, but the wrapped call does not
return that same thenable: the wrapper returns the derived promise
produced by `result.then(...).catch(...)`. -/
theorem c1_counterexample :
    (Logger.callFn c1heap 1 (.ref 3) [] .undefined).ret
      = .thenable ⟨0, .resolved (.num 42)⟩
    ∧ (Logger.callFn c1heap 2 (.ref 4) [] .undefined).ret
      ≠ .thenable ⟨0, .resolved (.num 42)⟩ := by
  decide

/-- C1 (amended): with `awaitPromises` enabled, when the original function
returns a thenable `t`, the wrapped call synchronously returns a derived
thenable — distinct from `t` but settling with the same outcome — emits one
`phase: 'call'` observation carrying `t`, and schedules one settlement
observation: `phase: 'resolved'` with the resolved value (or
`phase: 'rejected'` with the rejection reason). -/
theorem c1_await_returns_derived_thenable
    (h : Heap) (fuel wid : Nat) (label key : String) (captured : JSValue)
    (args : List JSValue) (this : JSValue) (t : Thenable)
    (hcode : (h wid).fnCode = some (.wrapper label key true captured))
    (hinner : Logger.callFn h fuel captured args this = ⟨.thenable t, [], []⟩) :
    Logger.callFn h (fuel + 1) (.ref wid) args this =
      ⟨.thenable ⟨t.id + 1, t.outcome⟩,
       [⟨label, key, args, some (.th t), none, this, "call"⟩],
       [match t.outcome with
        | .resolved v => ⟨label, key, args, some (.v v), none, this, "resolved"⟩
        | .rejected e => ⟨label, key, args, none, some e, this, "rejected"⟩]⟩
    ∧ Thenable.mk (t.id + 1) t.outcome ≠ t := by
  constructor
  · simp [Logger.callFn, hcode, hinner, Logger.wrapStep, Thenable.chainDerived]
  · intro hc
    have : t.id + 1 = t.id := congrArg Thenable.id hc
    omega

/-- C1 witness: the amended statement evaluated at the concrete wrapper
around a function returning a thenable resolving to 42: the call returns
the derived thenable (identity 1) and the scheduled settlement observation
is `phase: 'resolved'` with result 42. -/
theorem c1_witness :
    Logger.callFn c1heap 2 (.ref 4) [] .undefined =
      ⟨.thenable ⟨1, .resolved (.num 42)⟩,
       [⟨"[LOG]", "f", [], some (.th ⟨0, .resolved (.num 42)⟩), none, .undefined, "call"⟩],
       [⟨"[LOG]", "f", [], some (.v (.num 42)), none, .undefined, "resolved"⟩]⟩
    ∧ Thenable.mk 1 (.resolved (.num 42)) ≠ ⟨0, .resolved (.num 42)⟩ :=
  c1_await_returns_derived_thenable c1heap 1 4 "[LOG]" "f" (.ref 3) [] .undefined
    ⟨0, .resolved (.num 42)⟩ rfl rfl

/-- C2 counterexample: in an environment where both `globalThis` and
`window` are declared and bound to distinct objects, the two modules'
ambient resolutions disagree — MemberCollector's `getDefaultSource`
(`part_000`) picks `globalThis` while `src/crawler.js`'s picks `window`,
so the precedence order is not the same at every entry point. -/
theorem c2_counterexample :
    MC.getDefaultSource c2env ≠ Crawler.getDefaultSource c2env
    ∧ MC.getDefaultSource c2env = .binding (.ref 10)
    ∧ Crawler.getDefaultSource c2env = .binding (.ref 20) := by
  decide

/-- C2 (amended): each module probes exactly three well-known ambient
bindings in one fixed order with an empty-object fallback, and its own
entry points share that order — MemberCollector (both `collectMembers` and
`collectMembersWide`) probes `globalThis`, `window`, `global`, while the
legacy `src/crawler.js` probes `window`, `globalThis`, `global` — but the
two modules' precedence orders differ. -/
theorem c2_probe_order_per_module (e : Env) :
    (∀ v, e.globalThis = some v → MC.getDefaultSource e = .binding v)
    ∧ (e.globalThis = none → ∀ v, e.window = some v →
        MC.getDefaultSource e = .binding v)
    ∧ (e.globalThis = none → e.window = none → ∀ v, e.global = some v →
        MC.getDefaultSource e = .binding v)
    ∧ (e.globalThis = none → e.window = none → e.global = none →
        MC.getDefaultSource e = .freshEmpty)
    ∧ (∀ v, e.window = some v → Crawler.getDefaultSource e = .binding v)
    ∧ (e.window = none → ∀ v, e.globalThis = some v →
        Crawler.getDefaultSource e = .binding v)
    ∧ (e.window = none → e.globalThis = none → ∀ v, e.global = some v →
        Crawler.getDefaultSource e = .binding v)
    ∧ (e.window = none → e.globalThis = none → e.global = none →
        Crawler.getDefaultSource e = .freshEmpty)
    ∧ (∀ (σ : Type) (h : Heap) (fuel : Nat)
        (d x : List (Option String)) (ms : List Matcher)
        (onM : Option (MatchInfo → σ → σ)) (s0 : σ) (gv : JSValue),
        e.globalThis = some gv → truthy gv = true →
        MC.collectMembers e h fuel none d x ms onM s0 =
          MC.collectMembers e h fuel (some gv) d x ms onM s0)
    ∧ (∀ (σ : Type) (getH : σ → Heap) (fuel : Nat)
        (d x : List (Option String)) (ms : List Matcher)
        (onM : Option (MatchInfo → σ → σ)) (xc : List String) (s0 : σ)
        (gv : JSValue),
        e.globalThis = some gv → truthy gv = true →
        MC.collectMembersWide getH e fuel none d x ms onM xc s0 =
          MC.collectMembersWide getH e fuel (some gv) d x ms onM xc s0)
    ∧ (∀ (h : Heap) (fuel : Nat) (d x : List (Option String))
        (ms : List Matcher) (gv : JSValue),
        e.window = some gv → truthy gv = true →
        Crawler.collectMembers e h fuel none d x ms =
          Crawler.collectMembers e h fuel (some gv) d x ms) := by
  refine ⟨?_, ?_, ?_, ?_, ?_, ?_, ?_, ?_, ?_, ?_, ?_⟩
  · intro v hv; simp [MC.getDefaultSource, hv]
  · intro hg v hv; simp [MC.getDefaultSource, hg, hv]
  · intro hg hw v hv; simp [MC.getDefaultSource, hg, hw, hv]
  · intro hg hw hn; simp [MC.getDefaultSource, hg, hw, hn]
  · intro v hv; simp [Crawler.getDefaultSource, hv]
  · intro hw v hv; simp [Crawler.getDefaultSource, hw, hv]
  · intro hw hg v hv; simp [Crawler.getDefaultSource, hw, hg, hv]
  · intro hw hg hn; simp [Crawler.getDefaultSource, hw, hg, hn]
  · intro σ h fuel d x ms onM s0 gv hg htr
    simp [MC.collectMembers, MC.resolveSource, MC.getDefaultSource, hg, htr]
  · intro σ getH fuel d x ms onM xc s0 gv hg htr
    simp [MC.collectMembersWide, MC.resolveRoot, MC.getDefaultSource, hg, htr]
  · intro h fuel d x ms gv hw htr
    simp [Crawler.collectMembers, Crawler.resolveSource,
      Crawler.getDefaultSource, hw, htr]

/-- C2 witness: the amended statement at an environment where only
`globalThis` is declared — both modules resolve to it, and
`collectMembers` with no source behaves as if that binding were passed. -/
theorem c2_witness :
    MC.getDefaultSource c2envG = .binding (.ref 10)
    ∧ Crawler.getDefaultSource c2envG = .binding (.ref 10)
    ∧ MC.collectMembers (σ := Unit) c2envG c8heap 4 none [] [] [] none () =
        MC.collectMembers (σ := Unit) c2envG c8heap 4 (some (.ref 10)) [] [] [] none () :=
  have H := c2_probe_order_per_module c2envG
  ⟨H.1 _ rfl, (H.2.2.2.2.2.1) rfl _ rfl,
   (H.2.2.2.2.2.2.2.2.1) Unit c8heap 4 [] [] [] none () (.ref 10) rfl rfl⟩

/-- C3 counterexample: wrapping a matched callable member that sits behind
a non-writable data property — the install fails and the member is left
unmodified, yet the `(target, key)` pair has been recorded in the
WrapRegistry, contradicting the claim that the pair is recorded only after
a successful install. -/
theorem c3_counterexample :
    lookupProp (c3heap 2) "f" = some (.data (.ref 3) false true)
    ∧ (Logger.wrapFunction 3 (.ref 2) Logger.defaultOpts
        ⟨c3heap, 4, []⟩ "f" (.ref 3) (.ref 2)).registry = [(2, "f")]
    ∧ ((Logger.wrapFunction 3 (.ref 2) Logger.defaultOpts
        ⟨c3heap, 4, []⟩ "f" (.ref 3) (.ref 2)).heap 2).props
      = (c3heap 2).props := by
  decide

/-- C3 (amended): `markWrapped` records the `(installationTarget, key)`
pair at the moment the wrap is first attempted, before any install; when
the subsequent install fails (here: the assignment would throw), the
failure is swallowed and the member — indeed the whole heap — is left
unmodified, but the pair remains recorded, so the member is not retried
within the same session. -/
theorem c3_registry_records_before_install
    (fuel : Nat) (obj : JSValue) (opts : Logger.LogOpts)
    (ws : Logger.WrapState) (key : String) (value sourceObj : JSValue)
    (tid : Nat)
    (hcall : isCallable ws.heap value = true)
    (htgt : Logger.resolveTarget ws.heap fuel opts.wrapTarget obj sourceObj
      = .ref tid)
    (hnew : (tid, key) ∉ ws.registry)
    (hfail : jsSetOwn (ws.heap tid) key (.ref ws.next) = .error ()) :
    Logger.wrapFunction fuel obj opts ws key value sourceObj =
      ⟨ws.heap, ws.next, (tid, key) :: ws.registry⟩ := by
  unfold Logger.wrapFunction
  rw [hcall, htgt]
  simp only [Logger.markWrapped, if_neg hnew, if_true]
  by_cases hskip : Logger.skipDescriptor (ws.heap tid) key
  · simp [hskip]
  · simp only [hskip, Bool.false_eq_true, if_false]
    cases hget : jsGet ws.heap fuel (.ref tid) key with
    | error _ => rfl
    | ok v => simp only [hfail]

/-- C3 witness: the amended statement at the concrete non-writable member —
the resulting state keeps the original heap and next id, with the pair
pushed onto the registry. -/
theorem c3_witness :
    Logger.wrapFunction 3 (.ref 2) Logger.defaultOpts
      ⟨c3heap, 4, []⟩ "f" (.ref 3) (.ref 2) = ⟨c3heap, 4, [(2, "f")]⟩ :=
  c3_registry_records_before_install 3 (.ref 2) Logger.defaultOpts
    ⟨c3heap, 4, []⟩ "f" (.ref 3) (.ref 2) 2 (by decide) (by decide)
    (by decide) rfl

/-- C5 (code bug): calling `addLoggingToFunctions` twice on the same object
with the same rules double-wraps — after the second call the property holds
a wrapper around the first wrapper (object 5 wrapping object 4), and one
invocation of the matched function emits two `phase: 'call'` observations
instead of one, while after a single call it emits exactly one.  The
returned value is still the original result. -/
theorem c5_double_instrumentation_double_logs :
    (c5st2.heap 2).props.lookup "f" = some (.data (.ref 5) true true)
    ∧ (Logger.callFn c5st2.heap 4 (.ref 5) [.num 7] (.ref 2)).immediate.length = 2
    ∧ (Logger.callFn c5st1.heap 4 (.ref 4) [.num 7] (.ref 2)).immediate.length = 1
    ∧ (Logger.callFn c5st2.heap 4 (.ref 5) [.num 7] (.ref 2)).ret = .value (.num 1) := by
  decide

/-- C6 counterexample: in the legacy `src/crawler.js` collector the regex
cursor is not reset before testing, so reusing the same global/sticky
pattern object across two separate `collectMembers` calls over the same
source and rules yields different results: the first call collects
`"ab"`, the second collects nothing. -/
theorem c6_counterexample :
    (Crawler.collectMembers noEnv c6heap 3 (some (.ref 2)) [] [] c6m).1 = ["ab"]
    ∧ (Crawler.collectMembers noEnv c6heap 3 (some (.ref 2)) [] []
        ((Crawler.collectMembers noEnv c6heap 3 (some (.ref 2)) [] [] c6m).2)).1 = []
    ∧ (Crawler.collectMembers noEnv c6heap 3 (some (.ref 2)) [] [] c6m).1
      ≠ (Crawler.collectMembers noEnv c6heap 3 (some (.ref 2)) [] []
          ((Crawler.collectMembers noEnv c6heap 3 (some (.ref 2)) [] [] c6m).2)).1 := by
  decide

/-- C7: a wrapped function whose original throws `e` still throws exactly
`e` through the wrapper, and exactly one CallObservation with
`phase: 'call'` carrying that error is emitted before the throw
propagates; nothing is scheduled for settlement. -/
theorem c7_wrapped_throw_transparent
    (h : Heap) (fuel wid : Nat) (label key : String) (ap : Bool)
    (captured : JSValue) (args : List JSValue) (this e : JSValue)
    (hcode : (h wid).fnCode = some (.wrapper label key ap captured))
    (hinner : Logger.callFn h fuel captured args this = ⟨.throw e, [], []⟩) :
    Logger.callFn h (fuel + 1) (.ref wid) args this =
      ⟨.throw e, [⟨label, key, args, none, some e, this, "call"⟩], []⟩ := by
  simp [Logger.callFn, hcode, hinner, Logger.wrapStep]

/-- C7 witness: the concrete wrapper around a function throwing `"E"` —
the wrapped call throws `"E"` and emits exactly the one error
observation. -/
theorem c7_witness :
    Logger.callFn c7heap 2 (.ref 4) [.num 3] .undefined =
      ⟨.throw (.str "E"),
       [⟨"[LOG]", "f", [.num 3], none, some (.str "E"), .undefined, "call"⟩], []⟩ :=
  c7_wrapped_throw_transparent c7heap 1 4 "[LOG]" "f" false (.ref 3)
    [.num 3] .undefined (.str "E") rfl rfl

/-- C10 counterexample: `"toString"` is not a key of the preset pack
table, yet `getMatcherPack("toString")` does not return an empty list — the
property lookup walks into `Object.prototype`, finds the truthy inherited
`toString` function, and calling `.slice()` on it throws a `TypeError`;
likewise for `"__proto__"`. -/
theorem c10_counterexample :
    MC.packRef "toString" = none
    ∧ MC.getMatcherPack MC.initArrays "toString" = .error ()
    ∧ MC.getMatcherPack MC.initArrays "__proto__" = .error () :=
  ⟨rfl, rfl, rfl⟩

/-- C10 (amended): for every name that is neither an own key of the preset
pack table nor the name of a member inherited from `Object.prototype`, the
accessor returns a fresh empty rule list (never `undefined`), usable
directly as a matchers list; but for the inherited member names the lookup
finds a truthy value without a callable `.slice`, and the accessor throws
a `TypeError`. -/
theorem c10_pack_accessor_inherited_names
    (st : MC.Arrays) (name : String) :
    (MC.packRef name = none → name ∉ MC.objectProtoMemberNames →
      MC.getMatcherPack st name = .ok (MC.allocArr st [])
      ∧ (MC.allocArr st []).2.heapA (MC.allocArr st []).1 = [])
    ∧ (name ∈ MC.objectProtoMemberNames →
      MC.getMatcherPack st name = .error ()) := by
  constructor
  · intro h1 h2
    constructor
    · simp [MC.getMatcherPack, MC.packLookup, h1, h2]
    · simp [MC.allocArr]
  · intro hmem
    have hnone : MC.packRef name = none := by
      simp only [MC.objectProtoMemberNames, List.mem_cons,
        List.not_mem_nil, or_false] at hmem
      rcases hmem with rfl | rfl | rfl | rfl | rfl | rfl | rfl | rfl | rfl
        | rfl | rfl | rfl <;> rfl
    simp [MC.getMatcherPack, MC.packLookup, hnone, hmem]

/-- C10 witness: the amended statement at the genuinely absent name
`"nope"` (fresh empty list) and at the inherited name `"valueOf"`
(`TypeError`). -/
theorem c10_witness :
    (MC.getMatcherPack MC.initArrays "nope" = .ok (MC.allocArr MC.initArrays [])
      ∧ (MC.allocArr MC.initArrays []).2.heapA
          (MC.allocArr MC.initArrays []).1 = [])
    ∧ MC.getMatcherPack MC.initArrays "valueOf" = .error () :=
  ⟨(c10_pack_accessor_inherited_names MC.initArrays "nope").1 rfl (by decide),
   (c10_pack_accessor_inherited_names MC.initArrays "valueOf").2 (by decide)⟩

/-- C9: for each of the table's own pack names the accessor evaluates
`matcherPacks[name].slice()` — a fresh array distinct from the table's own
array — so any in-place mutation of the returned list (adds, removals,
reorderings are all instances of an arbitrary contents update) leaves the
table entry unchanged, and a subsequent accessor call for the same name
still returns the original canned rules. -/
theorem c9_pack_accessor_defensive_copy
    (st : MC.Arrays) (name : String) (r0 : Nat)
    (href : MC.packRef name = some r0) (hlt : r0 < st.nextA) :
    MC.getMatcherPack st name = .ok (MC.sliceArr st r0)
    ∧ (MC.sliceArr st r0).1 ≠ r0
    ∧ (∀ f, (MC.mutateAt (MC.sliceArr st r0).2
        (MC.sliceArr st r0).1 f).heapA r0 = st.heapA r0)
    ∧ (∀ f, MC.getMatcherPack
        (MC.mutateAt (MC.sliceArr st r0).2 (MC.sliceArr st r0).1 f) name
        = .ok (MC.sliceArr
            (MC.mutateAt (MC.sliceArr st r0).2 (MC.sliceArr st r0).1 f) r0))
    ∧ (∀ f, (MC.sliceArr
          (MC.mutateAt (MC.sliceArr st r0).2 (MC.sliceArr st r0).1 f)
          r0).2.heapA
        (MC.sliceArr
          (MC.mutateAt (MC.sliceArr st r0).2 (MC.sliceArr st r0).1 f) r0).1
        = st.heapA r0) := by
  refine ⟨?_, ?_, ?_, ?_, ?_⟩
  · simp [MC.getMatcherPack, MC.packLookup, href]
  · simp [MC.sliceArr]; omega
  · intro f
    simp only [MC.sliceArr, MC.mutateAt]
    split_ifs <;> first | rfl | (exfalso; omega)
  · intro f
    simp [MC.getMatcherPack, MC.packLookup, href]
  · intro f
    simp only [MC.sliceArr, MC.mutateAt]
    split_ifs <;> first | rfl | (exfalso; omega)

/-- C9 witness: slicing the `domEvents` pack and replacing the copy's
contents wholesale leaves the table's `domEvents` entry intact, and a
second accessor call still returns the canned `domEvents` rules. -/
theorem c9_witness :
    MC.getMatcherPack MC.initArrays "domEvents"
      = .ok (MC.sliceArr MC.initArrays 0)
    ∧ (MC.sliceArr MC.initArrays 0).1 ≠ 0
    ∧ (MC.mutateAt (MC.sliceArr MC.initArrays 0).2
        (MC.sliceArr MC.initArrays 0).1 (fun _ => [])).heapA 0
      = MC.domEventsPack
    ∧ MC.getMatcherPack (MC.mutateAt (MC.sliceArr MC.initArrays 0).2
        (MC.sliceArr MC.initArrays 0).1 (fun _ => [])) "domEvents"
      = .ok (MC.sliceArr (MC.mutateAt (MC.sliceArr MC.initArrays 0).2
          (MC.sliceArr MC.initArrays 0).1 (fun _ => [])) 0)
    ∧ (MC.sliceArr (MC.mutateAt (MC.sliceArr MC.initArrays 0).2
          (MC.sliceArr MC.initArrays 0).1 (fun _ => [])) 0).2.heapA
        (MC.sliceArr (MC.mutateAt (MC.sliceArr MC.initArrays 0).2
          (MC.sliceArr MC.initArrays 0).1 (fun _ => [])) 0).1
      = MC.domEventsPack :=
  have H := c9_pack_accessor_defensive_copy MC.initArrays "domEvents" 0 rfl
    (by decide)
  ⟨H.1, H.2.1, H.2.2.1 (fun _ => []), H.2.2.2.1 (fun _ => []),
   H.2.2.2.2 (fun _ => [])⟩

/-! Lemmas for the closure-deduplication claim. -/

theorem addSource_nodup (l : List Nat) (v : JSValue) (h : l.Nodup) :
    (MC.addSource l v).Nodup := by
  cases v <;> simp only [MC.addSource] <;> try exact h
  rename_i id
  by_cases hm : id ∈ l
  · simpa [hm] using h
  · simp only [hm, if_false]
    simp [List.nodup_append, h, hm]

theorem expandStep_nodup (h : Heap) (fuel : Nat) (root : JSValue) :
    ∀ (cks : List String) (acc : List Nat), acc.Nodup →
      (MC.expandStep h fuel root cks acc).Nodup := by
  intro cks
  induction cks with
  | nil => intro acc hacc; simpa [MC.expandStep] using hacc
  | cons c cks ih =>
    intro acc hacc
    simp only [MC.expandStep]
    apply ih
    cases root <;> try exact hacc
    repeat' split
    all_goals first | exact hacc | exact addSource_nodup _ _ hacc

theorem aliasStep_nodup (h : Heap) (fuel : Nat) (g : Option JSValue) :
    ∀ (nms : List String) (acc : List Nat), acc.Nodup →
      (MC.aliasStep h fuel g nms acc).Nodup := by
  intro nms
  induction nms with
  | nil => intro acc hacc; simpa [MC.aliasStep] using hacc
  | cons nm nms ih =>
    intro acc hacc
    simp only [MC.aliasStep]
    apply ih
    repeat' split
    all_goals first | exact hacc | exact addSource_nodup _ _ hacc

theorem protoChain_nodup (h : Heap) :
    ∀ (fuel : Nat) (pid : Option Nat) (acc : List Nat), acc.Nodup →
      (MC.protoChain h fuel pid acc).Nodup := by
  intro fuel
  induction fuel with
  | zero => intro pid acc hacc; simpa [MC.protoChain] using hacc
  | succ n ih =>
    intro pid acc hacc
    cases pid with
    | none => simpa [MC.protoChain] using hacc
    | some p =>
      simp only [MC.protoChain]
      split
      · exact hacc
      · exact ih _ _ (addSource_nodup _ _ hacc)

/-- C8: the source closure computed by `collectMembersWide` is always free
of duplicate references (membership is by reference identity, so an object
already in the closure is never re-added, and the scan phase processes
each closure member exactly once); in particular, for the concrete root
whose prototype (object 3) is also reachable as `root.constructor`, the
closure lists it exactly once. -/
theorem c8_closure_dedup :
    (∀ (h : Heap) (fuel : Nat) (e : Env) (root : JSValue)
      (xc : List String), (MC.buildSources h fuel e root xc).Nodup)
    ∧ MC.buildSources c8heap 4 noEnv (.ref 2) [] = [2, 3] := by
  constructor
  · intro h fuel e root xc
    have tryAdd_nodup : ∀ (acc : List Nat) (r : Except Unit JSValue),
        acc.Nodup → (MC.tryAddMember acc root r).Nodup := by
      intro acc r hacc
      simp only [MC.tryAddMember]
      repeat' split
      all_goals first | exact hacc | exact addSource_nodup _ _ hacc
    have h4 := tryAdd_nodup _ (jsGet h fuel root "prototype")
      (tryAdd_nodup _ (jsGet h fuel root "constructor")
        (expandStep_nodup h fuel root xc _
          (addSource_nodup [] root List.nodup_nil)))
    simp only [MC.buildSources]
    apply aliasStep_nodup
    cases root <;> try exact h4
    exact protoChain_nodup h _ _ _ h4
  · decide

/-! Monotonicity lemmas: the collectors' result set only ever grows. -/

theorem mem_addStr {x : String} (res : List String) (s : String)
    (h : x ∈ res) : x ∈ addStr res s := by
  simp only [addStr]
  split
  · exact h
  · exact List.mem_append_left _ h

theorem mem_addOut {x : String} (res : List String) (o : Option String)
    (h : x ∈ res) : x ∈ addOut res o := by
  cases o with
  | none => exact h
  | some s =>
    simp only [addOut]
    split
    · exact h
    · exact mem_addStr res s h

theorem RegexE_test_benign (g : Bool) (li : Nat)
    (mf : String → Nat → Option Nat) (s : String) :
    ∃ b r', RegexE.test ⟨g, li, mf, false, false⟩ s = .ok (b, r')
      ∧ r'.frozen = false ∧ r'.testThrows = false := by
  cases g with
  | false => exact ⟨_, _, rfl, rfl, rfl⟩
  | true =>
    cases hmf : mf s li with
    | none =>
      refine ⟨false, ⟨true, 0, mf, false, false⟩, ?_, rfl, rfl⟩
      simp [RegexE.test, hmf]
    | some e =>
      refine ⟨true, ⟨true, e, mf, false, false⟩, ?_, rfl, rfl⟩
      simp [RegexE.test, hmf]

theorem matcherTestE_benign (k : String) (v src : JSValue) (m : MatcherE)
    (hb : benignMatcher m = true) :
    ∃ b m', MCE.matcherTest m k v src = .ok (b, m')
      ∧ benignMatcher m' = true := by
  obtain ⟨t, val, tr⟩ := m
  cases val with
  | regex r =>
    obtain ⟨g, li, mf, fr, tt⟩ := r
    simp only [benignMatcher, Bool.and_eq_true, Bool.not_eq_true'] at hb
    obtain ⟨hfr, htt⟩ := hb
    subst hfr; subst htt
    simp only [MCE.matcherTest]
    split_ifs
    all_goals try exact ⟨_, _, rfl, by simp [benignMatcher]⟩
    all_goals try exact False.elim (by assumption)
    obtain ⟨b, r', hT, hfr', htt'⟩ := RegexE_test_benign g 0 mf k
    exact ⟨b, ⟨t, .regex r', tr⟩, by rw [hT],
      by simp [benignMatcher, hfr', htt']⟩
  | str s =>
    simp only [MCE.matcherTest]
    split_ifs <;> exact ⟨_, _, rfl, by simp [benignMatcher]⟩
  | fn p =>
    simp only [MCE.matcherTest]
    split_ifs <;> exact ⟨_, _, rfl, by simp [benignMatcher]⟩
  | other =>
    simp only [MCE.matcherTest]
    split_ifs <;> exact ⟨_, _, rfl, by simp [benignMatcher]⟩

theorem applyMatchersE_benign {σ : Type} (onM : Option (MatchInfoE → σ → σ))
    (k : String) (v src : JSValue) :
    ∀ (ms : List MatcherE) (res : List String) (s : σ),
      ms.all benignMatcher = true →
      ∃ out, MCE.applyMatchers onM k v src ms res s = .ok out
        ∧ out.2.1.all benignMatcher = true
        ∧ ∀ y, y ∈ res → y ∈ out.1 := by
  intro ms
  induction ms with
  | nil =>
    intro res s _
    exact ⟨(res, [], s), rfl, rfl, fun y hy => hy⟩
  | cons m ms ih =>
    intro res s hall
    simp only [List.all_cons, Bool.and_eq_true] at hall
    obtain ⟨hm, hms⟩ := hall
    obtain ⟨b, m', hT, hb'⟩ := matcherTestE_benign k v src m hm
    simp only [MCE.applyMatchers, hT]
    cases b with
    | true =>
      obtain ⟨rest, hR, hRall, hRmem⟩ :=
        ih (addOut res (MCE.runTransform m' k v))
          (MCE.notify onM ⟨k, v, src, m', MCE.runTransform m' k v⟩ s) hms
      refine ⟨(rest.1, m' :: rest.2.1, rest.2.2), ?_, ?_, ?_⟩
      · simp [hR]
      · simp only [List.all_cons, Bool.and_eq_true]
        exact ⟨hb', hRall⟩
      · intro y hy
        exact hRmem y (mem_addOut _ _ hy)
    | false =>
      obtain ⟨rest, hR, hRall, hRmem⟩ := ih res s hms
      refine ⟨(rest.1, m' :: rest.2.1, rest.2.2), ?_, ?_, ?_⟩
      · simp [hR]
      · simp only [List.all_cons, Bool.and_eq_true]
        exact ⟨hb', hRall⟩
      · exact hRmem

theorem scanKeysE_benign {σ : Type} (onM : Option (MatchInfoE → σ → σ))
    (h : Heap) (fuel : Nat) (src : JSValue) :
    ∀ (keys : List String) (res : List String) (ms : List MatcherE)
      (s : σ), ms.all benignMatcher = true →
      ∃ out, MCE.scanKeys onM h fuel src keys (res, ms, s) = .ok out
        ∧ out.2.1.all benignMatcher = true
        ∧ ∀ y, y ∈ res → y ∈ out.1 := by
  intro keys
  induction keys with
  | nil =>
    intro res ms s hall
    exact ⟨(res, ms, s), rfl, hall, fun y hy => hy⟩
  | cons k ks ih =>
    intro res ms s hall
    cases hget : jsGet h fuel src k with
    | error u =>
      simp only [MCE.scanKeys, hget]
      exact ih res ms s hall
    | ok v =>
      obtain ⟨acc1, hA, hAall, hAmem⟩ :=
        applyMatchersE_benign onM k v src ms res s hall
      obtain ⟨r1, mm1, s1⟩ := acc1
      dsimp only at hAall hAmem
      obtain ⟨out, hS, hSall, hSmem⟩ := ih r1 mm1 s1 hAall
      refine ⟨out, ?_, hSall, ?_⟩
      · simp only [MCE.scanKeys, hget, hA, hS]
      · intro y hy
        exact hSmem y (hAmem y hy)

theorem scanSrcKeysE_benign {σ : Type} (getH : σ → Heap)
    (onM : Option (MatchInfoE → σ → σ)) (fuel sid : Nat) :
    ∀ (keys : List String) (res : List String) (ms : List MatcherE)
      (s : σ), ms.all benignMatcher = true →
      ∃ out, MCE.scanSrcKeys getH onM fuel sid keys (res, ms, s) = .ok out
        ∧ out.2.1.all benignMatcher = true
        ∧ ∀ y, y ∈ res → y ∈ out.1 := by
  intro keys
  induction keys with
  | nil =>
    intro res ms s hall
    exact ⟨(res, ms, s), rfl, hall, fun y hy => hy⟩
  | cons k ks ih =>
    intro res ms s hall
    cases hget : jsGet (getH s) fuel (.ref sid) k with
    | error u =>
      simp only [MCE.scanSrcKeys, hget]
      exact ih res ms s hall
    | ok v =>
      obtain ⟨acc1, hA, hAall, hAmem⟩ :=
        applyMatchersE_benign onM k v (.ref sid) ms res s hall
      obtain ⟨r1, mm1, s1⟩ := acc1
      dsimp only at hAall hAmem
      obtain ⟨out, hS, hSall, hSmem⟩ := ih r1 mm1 s1 hAall
      refine ⟨out, ?_, hSall, ?_⟩
      · simp only [MCE.scanSrcKeys, hget, hA, hS]
      · intro y hy
        exact hSmem y (hAmem y hy)

theorem scanSourcesE_benign {σ : Type} (getH : σ → Heap)
    (onM : Option (MatchInfoE → σ → σ)) (fuel : Nat) :
    ∀ (sids : List Nat) (res : List String) (ms : List MatcherE) (s : σ),
      ms.all benignMatcher = true →
      ∃ out, MCE.scanSources getH onM fuel sids (res, ms, s) = .ok out
        ∧ out.2.1.all benignMatcher = true
        ∧ ∀ y, y ∈ res → y ∈ out.1 := by
  intro sids
  induction sids with
  | nil =>
    intro res ms s hall
    exact ⟨(res, ms, s), rfl, hall, fun y hy => hy⟩
  | cons sid rest ih =>
    intro res ms s hall
    obtain ⟨acc1, hA, hAall, hAmem⟩ :=
      scanSrcKeysE_benign getH onM fuel sid
        (((match jsKeysId (getH s) sid with
            | .ok ks => ks
            | .error _ => []) ++
          (match jsNamesId (getH s) sid with
            | .ok ns => ns
            | .error _ => [])).foldl addStr [])
        res ms s hall
    obtain ⟨r1, mm1, s1⟩ := acc1
    dsimp only at hAall hAmem
    obtain ⟨out, hS, hSall, hSmem⟩ := ih r1 mm1 s1 hAall
    refine ⟨out, ?_, hSall, ?_⟩
    · simp only [MCE.scanSources, hA, hS]
    · intro y hy
      exact hSmem y (hAmem y hy)

/-- C4 counterexample: two hostile regex-like pattern objects make the
entry points throw — a frozen global pattern (the uncaught strict-mode
`mVal.lastIndex = 0` write throws) and a pattern whose `test` dispatch
throws — so `collectMembers` (even with seeded defaults) and
`collectMembersWide` propagate a `TypeError` instead of returning a result
array. -/
theorem c4_counterexample :
    MCE.collectMembers (σ := Unit) noEnv c4heap 2 (some (.ref 2))
      [some "x"] [] [⟨"regex", .regex frozenRx, none⟩] none () = .error ()
    ∧ MCE.collectMembers (σ := Unit) noEnv c4heap 2 (some (.ref 2)) [] []
      [⟨"regex", .regex throwingRx, none⟩] none () = .error ()
    ∧ MCE.collectMembersWide (σ := Unit) (fun _ => c4heap) noEnv 2
      (some (.ref 2)) [] [] [⟨"regex", .regex frozenRx, none⟩] none []
      () = .error () :=
  ⟨rfl, rfl, rfl⟩

/-- C4 (amended): enumeration failures, property-access failures, and
predicate, transform and observer failures are all recovered locally —
whenever every Regex-kind rule carries a benign pattern (writable
`lastIndex`, non-throwing `test`), `collectMembers` and
`collectMembersWide` return a (possibly partial) result that still
contains every seeded value, for any source or root, any heap and any
observer; but the two uncaught operations of the regex branch make the
entry points throw on hostile regex-like pattern objects. -/
theorem c4_benign_rules_never_throw_seeds_preserved
    (σ : Type) (getH : σ → Heap) (e : Env) (h : Heap) (fuel : Nat)
    (sourceOpt rootOpt : Option JSValue)
    (defaults extra : List (Option String)) (ms : List MatcherE)
    (onM : Option (MatchInfoE → σ → σ)) (xc : List String) (s0 : σ)
    (y : String)
    (hb : ms.all benignMatcher = true)
    (hy : y ∈ seedSet (seedSet [] defaults) extra) :
    (∃ out, MCE.collectMembers e h fuel sourceOpt defaults extra ms onM s0
        = .ok out ∧ y ∈ out.1)
    ∧ (∃ out, MCE.collectMembersWide getH e fuel rootOpt defaults extra ms
        onM xc s0 = .ok out ∧ y ∈ out.1) := by
  constructor
  · simp only [MCE.collectMembers]
    cases hrs : MC.resolveSource e sourceOpt with
    | none =>
      simp only [hrs]
      exact ⟨_, rfl, hy⟩
    | some src =>
      simp only [hrs]
      cases hk : jsKeys h src with
      | error u =>
        simp only [hk]
        exact ⟨_, rfl, hy⟩
      | ok keys =>
        simp only [hk]
        obtain ⟨out, hS, _, hSmem⟩ :=
          scanKeysE_benign onM h fuel src keys
            (seedSet (seedSet [] defaults) extra) ms s0 hb
        exact ⟨out, hS, hSmem y hy⟩
  · simp only [MCE.collectMembersWide]
    cases hrr : MC.resolveRoot e rootOpt with
    | freshEmpty =>
      simp only [hrr]
      exact ⟨_, rfl, hy⟩
    | binding root =>
      simp only [hrr]
      obtain ⟨out, hS, _, hSmem⟩ :=
        scanSourcesE_benign getH onM fuel
          (MC.buildSources (getH s0) fuel e root xc)
          (seedSet (seedSet [] defaults) extra) ms s0 hb
      exact ⟨out, hS, hSmem y hy⟩

/-- C4 witness: the amended statement at a concrete benign instance — a
well-behaved sticky regex rule over a plain source, with the seed `"x"` —
both entry points return a result containing the seed. -/
theorem c4_witness :
    (∃ out, MCE.collectMembers (σ := Unit) noEnv c4heap 2 (some (.ref 2))
        [some "x"] [] [⟨"regex", .regex benignRx, none⟩] none ()
        = .ok out ∧ "x" ∈ out.1)
    ∧ (∃ out, MCE.collectMembersWide (σ := Unit) (fun _ => c4heap) noEnv 2
        (some (.ref 2)) [some "x"] [] [⟨"regex", .regex benignRx, none⟩]
        none [] () = .ok out ∧ "x" ∈ out.1) :=
  c4_benign_rules_never_throw_seeds_preserved Unit (fun _ => c4heap) noEnv
    c4heap 2 (some (.ref 2)) (some (.ref 2)) [some "x"] []
    [⟨"regex", .regex benignRx, none⟩] none [] () "x" rfl (by decide)

/-! Lemmas for the regex cursor-reset claim: erasing cursor state
(`normMatcher`) is invariant under MemberCollector's matcher evaluation,
because every regex test there resets `lastIndex` first. -/

theorem test_snd_norm (r : RegexObj) (s : String) :
    { (r.test s).2 with lastIndex := 0 } = { r with lastIndex := 0 } := by
  simp only [RegexObj.test]
  split
  · split <;> rfl
  · rfl

theorem matcherTest_norm (k : String) (v src : JSValue) (m₁ m₂ : Matcher)
    (h : normMatcher m₁ = normMatcher m₂) :
    (MC.matcherTest m₁ k v src).1 = (MC.matcherTest m₂ k v src).1
    ∧ normMatcher (MC.matcherTest m₁ k v src).2
      = normMatcher (MC.matcherTest m₂ k v src).2
    ∧ ((MC.matcherTest m₁ k v src).1 = true →
        MC.matcherTest m₁ k v src = MC.matcherTest m₂ k v src) := by
  obtain ⟨t₁, v₁, tr₁⟩ := m₁
  obtain ⟨t₂, v₂, tr₂⟩ := m₂
  cases v₁ <;> cases v₂ <;> simp [normMatcher] at h
  case str.str =>
    obtain ⟨h1, h2, h3⟩ := h
    subst h1; subst h2; subst h3
    exact ⟨rfl, rfl, fun _ => rfl⟩
  case fn.fn =>
    obtain ⟨h1, h2, h3⟩ := h
    subst h1; subst h2; subst h3
    exact ⟨rfl, rfl, fun _ => rfl⟩
  case other.other =>
    obtain ⟨h1, h3⟩ := h
    subst h1; subst h3
    exact ⟨rfl, rfl, fun _ => rfl⟩
  case regex.regex =>
    rename_i r₁ r₂
    obtain ⟨g₁, li₁, mf₁⟩ := r₁
    obtain ⟨g₂, li₂, mf₂⟩ := r₂
    simp at h
    obtain ⟨h1, ⟨hg, hmf⟩, h3⟩ := h
    subst h1; subst hg; subst hmf; subst h3
    refine ⟨?_, ?_, ?_⟩
    · simp only [MC.matcherTest]
      split_ifs <;> rfl
    · simp only [MC.matcherTest]
      split_ifs <;> simp [normMatcher, test_snd_norm]
    · intro hm
      simp only [MC.matcherTest] at hm ⊢
      split_ifs at hm ⊢
      rfl

theorem matcherTest_norm_self (k : String) (v src : JSValue) (m : Matcher) :
    normMatcher (MC.matcherTest m k v src).2 = normMatcher m := by
  obtain ⟨t, val, tr⟩ := m
  cases val <;> simp only [MC.matcherTest] <;> split_ifs <;>
    first
      | rfl
      | simp [normMatcher, test_snd_norm]

theorem applyMatchers_norm {σ : Type} (onM : Option (MatchInfo → σ → σ))
    (k : String) (v src : JSValue) :
    ∀ (ms₁ ms₂ : List Matcher) (res : List String) (s : σ),
      ms₁.map normMatcher = ms₂.map normMatcher →
      (MC.applyMatchers onM k v src ms₁ res s).1
        = (MC.applyMatchers onM k v src ms₂ res s).1
      ∧ ((MC.applyMatchers onM k v src ms₁ res s).2.1).map normMatcher
        = ((MC.applyMatchers onM k v src ms₂ res s).2.1).map normMatcher
      ∧ (MC.applyMatchers onM k v src ms₁ res s).2.2
        = (MC.applyMatchers onM k v src ms₂ res s).2.2 := by
  intro ms₁
  induction ms₁ with
  | nil =>
    intro ms₂ res s h
    cases ms₂ with
    | nil => exact ⟨rfl, rfl, rfl⟩
    | cons _ _ => simp at h
  | cons m₁ ms₁ ih =>
    intro ms₂ res s h
    cases ms₂ with
    | nil => simp at h
    | cons m₂ ms₂ =>
      simp only [List.map_cons, List.cons.injEq] at h
      obtain ⟨hh, ht⟩ := h
      obtain ⟨hb, hns, hfull⟩ := matcherTest_norm k v src m₁ m₂ hh
      simp only [MC.applyMatchers]
      by_cases hm : (MC.matcherTest m₁ k v src).1 = true
      · have hfe := hfull hm
        rw [hfe] at hm ⊢
        simp only [hm, if_true]
        refine ⟨(ih ms₂ _ _ ht).1, ?_, (ih ms₂ _ _ ht).2.2⟩
        simpa using (ih ms₂ _ _ ht).2.1
      · have hm₂ : ¬ ((MC.matcherTest m₂ k v src).1 = true) := by
          rw [← hb]; exact hm
        rw [if_neg hm, if_neg hm₂]
        obtain ⟨h1, h2, h3⟩ := ih ms₂ res s ht
        exact ⟨h1, by simpa using ⟨hns, h2⟩, h3⟩

theorem applyMatchers_map_norm {σ : Type} (onM : Option (MatchInfo → σ → σ))
    (k : String) (v src : JSValue) :
    ∀ (ms : List Matcher) (res : List String) (s : σ),
      ((MC.applyMatchers onM k v src ms res s).2.1).map normMatcher
        = ms.map normMatcher := by
  intro ms
  induction ms with
  | nil => intro res s; rfl
  | cons m ms ih =>
    intro res s
    simp only [MC.applyMatchers]
    split <;> simp [List.map_cons, matcherTest_norm_self, ih]

theorem scanKeys_norm {σ : Type} (onM : Option (MatchInfo → σ → σ))
    (h : Heap) (fuel : Nat) (src : JSValue) :
    ∀ (keys : List String) (res : List String) (ms₁ ms₂ : List Matcher)
      (s : σ), ms₁.map normMatcher = ms₂.map normMatcher →
      (MC.scanKeys onM h fuel src keys (res, ms₁, s)).1
        = (MC.scanKeys onM h fuel src keys (res, ms₂, s)).1
      ∧ ((MC.scanKeys onM h fuel src keys (res, ms₁, s)).2.1).map normMatcher
        = ((MC.scanKeys onM h fuel src keys (res, ms₂, s)).2.1).map normMatcher
      ∧ (MC.scanKeys onM h fuel src keys (res, ms₁, s)).2.2
        = (MC.scanKeys onM h fuel src keys (res, ms₂, s)).2.2 := by
  intro keys
  induction keys with
  | nil => intro res ms₁ ms₂ s hn; exact ⟨rfl, hn, rfl⟩
  | cons k ks ih =>
    intro res ms₁ ms₂ s hn
    simp only [MC.scanKeys]
    cases hget : jsGet h fuel src k with
    | error u => simp only [hget]; exact ih res ms₁ ms₂ s hn
    | ok v =>
      simp only [hget]
      obtain ⟨h1, h2, h3⟩ := applyMatchers_norm onM k v src ms₁ ms₂ res s hn
      rcases hA1 : MC.applyMatchers onM k v src ms₁ res s with ⟨r₁, mm₁, s₁⟩
      rcases hA2 : MC.applyMatchers onM k v src ms₂ res s with ⟨r₂, mm₂, s₂⟩
      rw [hA1, hA2] at h1 h2 h3
      dsimp only at h1 h2 h3
      subst h1
      subst h3
      exact ih r₁ mm₁ mm₂ s₁ h2

theorem scanKeys_map_norm {σ : Type} (onM : Option (MatchInfo → σ → σ))
    (h : Heap) (fuel : Nat) (src : JSValue) :
    ∀ (keys : List String) (res : List String) (ms : List Matcher) (s : σ),
      ((MC.scanKeys onM h fuel src keys (res, ms, s)).2.1).map normMatcher
        = ms.map normMatcher := by
  intro keys
  induction keys with
  | nil => intro res ms s; rfl
  | cons k ks ih =>
    intro res ms s
    simp only [MC.scanKeys]
    cases hget : jsGet h fuel src k with
    | error u => simp only [hget]; exact ih res ms s
    | ok v =>
      simp only [hget]
      have hall := applyMatchers_map_norm onM k v src ms res s
      rcases hA : MC.applyMatchers onM k v src ms res s with ⟨r', mm', s'⟩
      rw [hA] at hall
      dsimp only at hall
      rw [ih r' mm' s']
      exact hall

/-- C6 (amended, MemberCollector half): in `part_000`'s `applyMatchers`
every regex test resets the pattern's `lastIndex` cursor to the start
first, so a second `collectMembers` call that reuses the same pattern
objects (the matcher states returned by the first call) over the same
source and rules returns exactly the same result set — for every source,
heap, matcher list and observer. -/
theorem c6_reset_makes_collect_repeatable :
    ∀ (σ : Type) (e : Env) (h : Heap) (fuel : Nat)
      (sourceOpt : Option JSValue) (d x : List (Option String))
      (ms : List Matcher) (onM : Option (MatchInfo → σ → σ)) (s0 : σ),
      (MC.collectMembers e h fuel sourceOpt d x
        ((MC.collectMembers e h fuel sourceOpt d x ms onM s0).2.1)
        onM s0).1
      = (MC.collectMembers e h fuel sourceOpt d x ms onM s0).1 := by
  intro σ e h fuel sourceOpt d x ms onM s0
  cases hrs : MC.resolveSource e sourceOpt with
  | none => simp [MC.collectMembers, hrs]
  | some src =>
    cases hk : jsKeys h src with
    | error u => simp [MC.collectMembers, hrs, hk]
    | ok keys =>
      simp only [MC.collectMembers, hrs, hk]
      exact (scanKeys_norm onM h fuel src keys _ _ ms s0
        (scanKeys_map_norm onM h fuel src keys _ ms s0)).1
